import Mathlib

/-!
Verification of the browsertrix-harvester WACZ/metadata pipeline.

The definitions below are a shallow embedding of the functions in
src/harvester/wacz.py (class WACZClient) and src/harvester/metadata.py
(classes CrawlMetadataParser and CrawlMetadataRecords).  External
collaborators (the file system reached through smart_open/open, json.loads,
the warcio record reader, BeautifulSoup and the yake keyword extractor) are
passed in as function parameters; pandas DataFrames are modelled as lists of
rows, with NaN cells modelled as `Option.none`.  Python strings are modelled
as Lean `String`s and the Python string operations the source uses
(strip, split, lower, single-character replace) are implemented character
by character so that every definition evaluates by `decide`/`rfl`.
-/

deriving instance DecidableEq for Except

/-! ## Python string primitives used by the source -/

/-- Whitespace characters removed by Python `str.strip()` (the ASCII ones;
the source only ever strips CDX/URL lines, which are ASCII). -/
def isPySpace (c : Char) : Bool :=
  c = ' ' || c = '\t' || c = '\n' || c = '\r' || c = '\x0b' || c = '\x0c'

/-- Python `str.strip()`. -/
def pyStrip (s : String) : String :=
  String.mk (((s.toList.dropWhile isPySpace).reverse.dropWhile isPySpace).reverse)

/-- Python `str.lower()` (ASCII case folding, which is all the source needs
for file extensions). -/
def pyLower (s : String) : String :=
  String.mk (s.toList.map Char.toLower)

/-- Split a character list at the first occurrence of `c`; `none` when `c`
does not occur. -/
def splitOnceChar (c : Char) : List Char → Option (List Char × List Char)
  | [] => none
  | x :: xs =>
    if x = c then some ([], xs)
    else
      match splitOnceChar c xs with
      | none => none
      | some (a, b) => some (x :: a, b)

/-- Python `str.split(" ", 2)`: split on single spaces, at most two splits,
so the result has one, two or three elements. -/
def pySplitSpace2 (s : String) : List String :=
  match splitOnceChar ' ' s.toList with
  | none => [s]
  | some (a, rest) =>
    match splitOnceChar ' ' rest with
    | none => [String.mk a, String.mk rest]
    | some (b, rest2) => [String.mk a, String.mk b, String.mk rest2]

/-- Split a character list on every occurrence of `c` (Python `str.split(".")`
behaviour for a one-character separator: always at least one piece). -/
def splitCharList (c : Char) : List Char → List (List Char)
  | [] => [[]]
  | x :: xs =>
    let r := splitCharList c xs
    if x = c then [] :: r
    else
      match r with
      | y :: ys => (x :: y) :: ys
      | [] => [[x]]

/-- Python `str.split(".")`. -/
def pySplitDot (s : String) : List String :=
  (splitCharList '.' s.toList).map String.mk

/-! ## Errors raised by the source (harvester.exceptions and Python builtins) -/

inductive PyError where
  | contextManagerRequired
  | waczFileDoesNotExist
  | attributeError
  | fileNotFound (msg : String)
deriving DecidableEq

/-! ## JSON payloads of CDX index lines -/

inductive JsonValue where
  | str (s : String)
  | num (n : Int)
  | null
deriving DecidableEq

/-- A decoded JSON object, as json.loads returns it for a CDX payload. -/
abbrev JsonObj := List (String × JsonValue)

/-- Value of column `k` in a pandas row built from JSON object `o`.  A JSON
`null` becomes None/NaN in the DataFrame, which behaves like a missing key
for the `isna` checks and `==` comparisons the source performs. -/
def cell (o : JsonObj) (k : String) : Option JsonValue :=
  match o.lookup k with
  | some JsonValue.null => none
  | v => v

/-- Whether `pd.DataFrame(os)` has a column `k`: pandas creates the column
when any of the dicts has the key, even when every value is null. -/
def hasColumn (os : List JsonObj) (k : String) : Bool :=
  os.any (fun o => (o.lookup k).isSome)

/-! ## WACZClient (src/harvester/wacz.py) -/

/-- Contents of an opened WACZ zip archive: named entries with their byte
contents (bytes modelled as strings). -/
abbrev Archive := List (String × String)

/-- State of a `WACZClient` instance: `wacz_archive` is the private
`_wacz_archive` cache, `via_context_manager` the `_via_context_manager`
flag. -/
structure WACZClient where
  wacz_filepath : String
  via_context_manager : Bool
  wacz_archive : Option Archive
deriving DecidableEq

/-- `WACZClient.__init__`. -/
def WACZClient.init (wacz_filepath : String) : WACZClient :=
  ⟨wacz_filepath, false, none⟩

/-- `WACZClient.__enter__`: sets `_via_context_manager` to `True`. -/
def WACZClient.enter (c : WACZClient) : WACZClient :=
  { c with via_context_manager := true }

/-- `WACZClient.close`: closes and clears any open `_wacz_archive`
(`_via_context_manager` is left untouched). -/
def WACZClient.close (c : WACZClient) : WACZClient :=
  { c with wacz_archive := none }

/-- `WACZClient.__exit__`: calls `close`. -/
def WACZClient.exit (c : WACZClient) : WACZClient :=
  c.close

/-- The `WACZClient.wacz_archive` property.  `fs` models opening the file at
`wacz_filepath` with smart_open and reading it into a `zipfile.ZipFile`.
Raises `ContextManagerRequiredError` when the client was not entered via a
context manager; otherwise returns the cached archive, or opens, caches and
returns it. -/
def WACZClient.wacz_archive_read (fs : String → Archive) (c : WACZClient) :
    Except PyError (Archive × WACZClient) :=
  if !c.via_context_manager then .error .contextManagerRequired
  else
    match c.wacz_archive with
    | some a => .ok (a, c)
    | none =>
      let a := fs c.wacz_filepath
      .ok (a, { c with wacz_archive := some a })

/-- `WACZClient._get_archive_file_obj`: opens a named entry of the WACZ
archive; a missing entry (`KeyError`) becomes `WaczFileDoesNotExist`. -/
def WACZClient.get_archive_file_obj (fs : String → Archive) (c : WACZClient)
    (archive_filepath : String) : Except PyError (String × WACZClient) :=
  match c.wacz_archive_read fs with
  | .error e => .error e
  | .ok (a, c') =>
    match a.lookup archive_filepath with
    | some data => .ok (data, c')
    | none => .error .waczFileDoesNotExist

/-- `WACZClient._parse_cdx_line`.  `jsonLoads` models `json.loads` restricted
to JSON objects; it returns `none` where json.loads would raise
`json.JSONDecodeError`.  A line with fewer than two spaces makes the
`split(" ", 2)[2]` subscript raise `IndexError`; both exceptions are caught
and turn into `None`. -/
def parse_cdx_line (jsonLoads : String → Option JsonObj) (bytes_line : String) :
    Option JsonObj :=
  let str_line := pyStrip bytes_line
  match pySplitSpace2 str_line with
  | [_, _, json_str] => jsonLoads json_str
  | _ => none

/-- The list `parsed_data` built by `WACZClient._get_cdx_df`: each CDX line
parsed by `_parse_cdx_line`, the `None` results dropped. -/
def cdx_parsed (jsonLoads : String → Option JsonObj) (lines : List String) :
    List JsonObj :=
  lines.filterMap (parse_cdx_line jsonLoads)

/-- `WACZClient._get_cdx_df` from the decompressed index lines onward:
builds `pd.DataFrame(parsed_data)` and filters it to
`cdx_df.mime == "text/html"`.  When no parsed object carries a `mime` key the
DataFrame has no `mime` column and `cdx_df.mime` raises `AttributeError`. -/
def get_cdx_df (jsonLoads : String → Option JsonObj) (lines : List String) :
    Except PyError (List JsonObj) :=
  if hasColumn (cdx_parsed jsonLoads lines) "mime" then
    .ok ((cdx_parsed jsonLoads lines).filter
      (fun o => decide (cell o "mime" = some (JsonValue.str "text/html"))))
  else .error .attributeError

/-- One row of the pages DataFrame built by `WACZClient._get_pages_df`
(url plus the optional title and extracted text of a crawled page). -/
structure PageRow where
  url : String
  title : Option String
  text : Option String
deriving DecidableEq

/-- One row of the merged DataFrame built by `WACZClient.html_websites_df`:
the pages columns plus the CDX columns (None for a page with no CDX match). -/
structure MergedRow where
  url : String
  title : Option String
  text : Option String
  mime : Option JsonValue
  status : Option JsonValue
  digest : Option JsonValue
  length : Option JsonValue
  offset : Option JsonValue
  filename : Option JsonValue
deriving DecidableEq

/-- The merged row for a pages row `p` and a matching CDX object `c`. -/
def mergeRow (p : PageRow) (c : JsonObj) : MergedRow :=
  { url := p.url, title := p.title, text := p.text,
    mime := cell c "mime", status := cell c "status", digest := cell c "digest",
    length := cell c "length", offset := cell c "offset",
    filename := cell c "filename" }

/-- The merged row for a pages row with no CDX match: every CDX column NaN. -/
def unmatchedRow (p : PageRow) : MergedRow :=
  { url := p.url, title := p.title, text := p.text,
    mime := none, status := none, digest := none, length := none,
    offset := none, filename := none }

/-- `extra_pages_df.merge(cdx_df, how="left", on="url")`: every pages row
paired with each CDX row of equal url, or kept once with NaN CDX columns when
no CDX row matches. -/
def mergeLeft (pages : List PageRow) (cdx : List JsonObj) : List MergedRow :=
  pages.flatMap (fun p =>
    if (cdx.filter (fun c => decide (cell c "url" = some (JsonValue.str p.url)))).isEmpty
    then [unmatchedRow p]
    else (cdx.filter
      (fun c => decide (cell c "url" = some (JsonValue.str p.url)))).map (mergeRow p))

/-- `WACZClient.html_websites_df` from the pages rows and raw CDX lines
onward: merge, then drop rows whose `filename` is NaN (`merged_df.filename`
raises `AttributeError` when no parsed CDX object carries a `filename` key,
since then neither merged DataFrame has that column).  The trailing
`reset_index` and NaN-to-None replacement do not change the rows as
modelled. -/
def html_websites_df (jsonLoads : String → Option JsonObj)
    (pages : List PageRow) (cdx_lines : List String) :
    Except PyError (List MergedRow) :=
  match get_cdx_df jsonLoads cdx_lines with
  | .error e => .error e
  | .ok cdx =>
    if hasColumn (cdx_parsed jsonLoads cdx_lines) "filename" then
      .ok ((mergeLeft pages cdx).filter (fun r => r.filename.isSome))
    else .error .attributeError

/-- `WACZClient.get_website_content_by_url` given the already built
`html_websites_df` rows.  `get_content` models `WACZClient.get_website_content`
(the warcio-backed extraction from the WARC file named by the row).  Unless
exactly one row matches the url, a `FileNotFoundError` is raised. -/
def get_website_content_by_url
    (get_content : Option JsonValue → Option JsonValue → String)
    (df : List MergedRow) (url : String) : Except PyError String :=
  match df.filter (fun r => decide (r.url = url)) with
  | [row] => .ok (get_content row.filename row.offset)
  | _ => .error (.fileNotFound ("Could not find url in CDX index: " ++ url))

/-! ## CrawlMetadataParser (src/harvester/metadata.py) -/

/-- One metadata record as assembled by `CrawlMetadataParser.generate_metadata`
(restricted to the fields `_remove_duplicate_urls` acts on: the url grouping
key, the `active`/`deleted` status and the `cdx_offset` sort key).  The
`cdx_offset` cell is copied unconverted from the CDX index's JSON `offset`
value, which this index format writes as a decimal string (the repository's
own fixtures show `"offset": "3485"`), and is None/NaN for a deleted
record. -/
structure MetaRecord where
  url : String
  status : String
  cdx_offset : Option String
deriving DecidableEq

/-- Python string `<` on character lists: lexicographic comparison by code
point, exactly as Python compares the string-valued offset cells. -/
def pyStrLT : List Char → List Char → Bool
  | [], [] => false
  | [], _ :: _ => true
  | _ :: _, [] => false
  | a :: as, b :: bs =>
    if a.toNat < b.toNat then true
    else if b.toNat < a.toNat then false
    else pyStrLT as bs

/-- Python string `<=`: `s <= t` iff not `t < s`. -/
def pyStrLE (s t : String) : Bool :=
  !pyStrLT t.toList s.toList

/-- Python string `<` is irreflexive. -/
theorem pyStrLT_irrefl (a : List Char) : pyStrLT a a = false := by
  induction a with
  | nil => rfl
  | cons x xs ih => simp [pyStrLT, ih]

/-- Python string `<` is asymmetric. -/
theorem pyStrLT_asymm (a : List Char) :
    ∀ b, pyStrLT a b = true → pyStrLT b a = false := by
  induction a with
  | nil =>
    intro b h
    cases b with
    | nil => simp [pyStrLT] at h
    | cons y ys => simp [pyStrLT]
  | cons x xs ih =>
    intro b h
    cases b with
    | nil => simp [pyStrLT] at h
    | cons y ys =>
      rcases Nat.lt_trichotomy x.toNat y.toNat with h1 | h1 | h1
      · simp [pyStrLT, h1, Nat.lt_asymm h1]
      · simp only [pyStrLT, h1, lt_self_iff_false, if_false] at h ⊢
        exact ih ys h
      · simp [pyStrLT, h1, Nat.lt_asymm h1] at h

/-- Python string `<` is cotransitive: a pair in the order stays ordered
around any third string. -/
theorem pyStrLT_cotrans (c : List Char) :
    ∀ a, pyStrLT c a = true →
      ∀ b, pyStrLT c b = true ∨ pyStrLT b a = true := by
  induction c with
  | nil =>
    intro a h b
    cases b with
    | nil => right; exact h
    | cons y ys => left; rfl
  | cons x xs ih =>
    intro a h b
    cases a with
    | nil => simp [pyStrLT] at h
    | cons z zs =>
      cases b with
      | nil => right; rfl
      | cons y ys =>
        rcases Nat.lt_trichotomy x.toNat z.toNat with hxz | hxz | hxz
        · rcases Nat.lt_trichotomy x.toNat y.toNat with hxy | hxy | hxy
          · left; simp [pyStrLT, hxy]
          · right
            have hyz : y.toNat < z.toNat := hxy ▸ hxz
            simp [pyStrLT, hyz]
          · right
            have hyz : y.toNat < z.toNat := Nat.lt_trans hxy hxz
            simp [pyStrLT, hyz]
        · have h' : pyStrLT xs zs = true := by
            simpa [pyStrLT, hxz, lt_self_iff_false] using h
          rcases Nat.lt_trichotomy x.toNat y.toNat with hxy | hxy | hxy
          · left; simp [pyStrLT, hxy]
          · rcases ih zs h' ys with htail | htail
            · left
              simp only [pyStrLT, hxy, lt_self_iff_false, if_false]
              exact htail
            · right
              have hyz : ¬y.toNat < z.toNat := by rw [← hxy, ← hxz]; simp
              have hzy : ¬z.toNat < y.toNat := by rw [← hxy, ← hxz]; simp
              simp only [pyStrLT, hyz, hzy, if_false]
              exact htail
          · right
            have hyz : y.toNat < z.toNat := hxz ▸ hxy
            simp [pyStrLT, hyz]
        · simp [pyStrLT, Nat.lt_asymm hxz, hxz] at h

/-- Order of the `cdx_offset` column under `sort_values("cdx_offset")`: the
cells are Python strings in an object column, so pandas compares them with
the string `<`, i.e. lexicographically by code point (so "1002" < "998"),
with NaN placed last (pandas default `na_position="last"`). -/
def offLE : Option String → Option String → Bool
  | some x, some y => pyStrLE x y
  | some _, none => true
  | none, some _ => false
  | none, none => true

/-- The row order `sort_values("cdx_offset")` sorts by. -/
def recLE (a b : MetaRecord) : Prop :=
  offLE a.cdx_offset b.cdx_offset = true

instance : DecidableRel recLE := fun a b => by
  unfold recLE; infer_instance

/-- Python string `<=` is total. -/
theorem pyStrLE_total (x y : String) :
    pyStrLE x y = true ∨ pyStrLE y x = true := by
  unfold pyStrLE
  cases hlt : pyStrLT (String.toList y) (String.toList x) with
  | false => left; rfl
  | true => right; rw [pyStrLT_asymm _ _ hlt]; rfl

/-- Python string `<=` is transitive. -/
theorem pyStrLE_trans {x y z : String} (h1 : pyStrLE x y = true)
    (h2 : pyStrLE y z = true) : pyStrLE x z = true := by
  unfold pyStrLE at *
  rw [Bool.not_eq_true'] at h1 h2 ⊢
  by_contra hca
  rw [Bool.not_eq_false] at hca
  rcases pyStrLT_cotrans _ _ hca y.toList with h | h
  · rw [h2] at h
    exact Bool.noConfusion h
  · rw [h1] at h
    exact Bool.noConfusion h

instance : IsTotal MetaRecord recLE where
  total a b := by
    unfold recLE
    cases ha : a.cdx_offset <;> cases hb : b.cdx_offset <;> simp [offLE]
    exact pyStrLE_total _ _

instance : IsTrans MetaRecord recLE where
  trans a b c hab hbc := by
    unfold recLE at *
    cases ha : a.cdx_offset <;> cases hb : b.cdx_offset <;>
      cases hc : c.cdx_offset <;> simp_all [offLE]
    exact pyStrLE_trans hab hbc

/-- `drop_duplicates(subset="url", keep="last")`: keep a row exactly when no
later row carries the same url. -/
def dropDupLastUrl : List MetaRecord → List MetaRecord
  | [] => []
  | x :: xs =>
    if xs.any (fun y => decide (y.url = x.url)) then dropDupLastUrl xs
    else x :: dropDupLastUrl xs

/-- `CrawlMetadataParser._remove_duplicate_urls`: sort by `cdx_offset`
ascending (NaN last), then drop duplicate urls keeping the last instance.
`reset_index(drop=True)` does not change the rows. -/
def remove_duplicate_urls (l : List MetaRecord) : List MetaRecord :=
  dropDupLastUrl (List.insertionSort recLE l)

/-- One `{url, status: "deleted"}` record emitted by
`CrawlMetadataParser._generate_metadata_for_deleted_urls`. -/
structure DeletedRecord where
  url : String
  status : String
deriving DecidableEq

/-- `CrawlMetadataParser._generate_metadata_for_deleted_urls` given the lines
of the two URL files.  `previous_file` is `none` when
`smart_open.open(previous_urls_filepath)` raises `FileNotFoundError`/`OSError`
(caught: the method returns `[]`); the current file's lines are read with a
plain `open` outside any `try`.  Lines are stripped, the set difference
previous minus current is formed (`list(set(...))`, modelled as a
deduplicated list) and one record is emitted per non-empty url. -/
def generate_metadata_for_deleted_urls
    (current_file : List String) (previous_file : Option (List String)) :
    List DeletedRecord :=
  let current_urls := current_file.map pyStrip
  match previous_file with
  | none => []
  | some prev =>
    let previous_urls := prev.map pyStrip
    let deleted_urls :=
      (previous_urls.filter (fun u => decide (u ∉ current_urls))).dedup
    deleted_urls.filterMap (fun url =>
      if url = "" then none else some ⟨url, "deleted"⟩)

/-- The fulltext fields of one output record. -/
structure FulltextFields where
  fulltext : Option String
  fulltext_keywords : Option String
deriving DecidableEq

/-- `CrawlMetadataParser._remove_fulltext_whitespace`: the three successive
single-character `str.replace` calls turn every `\n`, `\r` and `\t` into a
space. -/
def remove_fulltext_whitespace (s : String) : String :=
  String.mk (s.toList.map (fun ch =>
    if ch = '\n' || ch = '\r' || ch = '\t' then ' ' else ch))

/-- `CrawlMetadataParser.parse_fulltext_fields`.  `extract_keywords_fn` models
`_generate_fulltext_keywords` (the yake extractor joined with commas). -/
def parse_fulltext_fields (extract_keywords_fn : String → String)
    (raw_fulltext : Option String)
    (include_fulltext : Bool) (extract_fulltext_keywords : Bool) :
    FulltextFields :=
  if !(include_fulltext || extract_fulltext_keywords) then ⟨none, none⟩
  else
    match raw_fulltext with
    | none => ⟨none, none⟩
    | some raw =>
      let fulltext := remove_fulltext_whitespace raw
      { fulltext := if include_fulltext then some fulltext else none,
        fulltext_keywords :=
          if extract_fulltext_keywords then some (extract_keywords_fn fulltext)
          else none }

/-- The keyword arguments of `CrawlMetadataParser.generate_metadata`. -/
structure GenerateArgs where
  include_fulltext : Bool
  extract_fulltext_keywords : Bool
  urls_file : Option String
  previous_sitemap_urls_file : Option String
deriving DecidableEq

/-- State of a `CrawlMetadataParser` instance: `websites_metadata` is the
private `_websites_metadata` cache (a `CrawlMetadataRecords` instance is
always truthy, so `some records` always short-circuits the guard
`if self._websites_metadata:`). -/
structure ParserState where
  wacz_filepath : String
  websites_metadata : Option (List MetaRecord)
deriving DecidableEq

/-- `CrawlMetadataParser.generate_metadata`: returns the cached record set
when one exists, else computes one from the WACZ file and the arguments and
caches it.  `compute` models the body of the method (the WACZ walk, HTML
enrichment, deleted-url records and dedup), which depends on the WACZ
filepath and on every argument. -/
def generate_metadata (compute : String → GenerateArgs → List MetaRecord)
    (p : ParserState) (args : GenerateArgs) :
    List MetaRecord × ParserState :=
  match p.websites_metadata with
  | some records => (records, p)
  | none =>
    let records := compute p.wacz_filepath args
    (records, { p with websites_metadata := some records })

/-! ## CrawlMetadataRecords.write (src/harvester/metadata.py) -/

inductive FileFormat where
  | xml
  | jsonl
  | tsv
  | csv
deriving DecidableEq

/-- The `file_format` string `CrawlMetadataRecords.write` computes:
`filepath.split(".")[-1].strip().lower()`. -/
def file_format_of (filepath : String) : String :=
  pyLower (pyStrip ((pySplitDot filepath).getLastD ""))

/-- The format dispatch of `CrawlMetadataRecords.write`: one of the four
serializers by the lowercased extension, else `NotImplementedError` with the
source's message. -/
def write_dispatch (filepath : String) : Except String FileFormat :=
  let file_format := file_format_of filepath
  if file_format = "xml" then .ok .xml
  else if file_format = "jsonl" then .ok .jsonl
  else if file_format = "tsv" then .ok .tsv
  else if file_format = "csv" then .ok .csv
  else .error ("File format " ++ file_format ++ " not recognized")

/-! ## Concrete fixtures used by counterexamples and witnesses -/

/-- A `json.loads` test double: decodes exactly the payload token `OBJ1` into
a well-formed CDX object and fails on everything else. -/
def jsonLoadsFixture : String → Option JsonObj := fun s =>
  if s = "OBJ1" then
    some [("url", JsonValue.str "https://libraries.mit.edu/"),
          ("mime", JsonValue.str "text/html"),
          ("offset", JsonValue.str "3485"),
          ("filename", JsonValue.str "rec-1.warc.gz")]
  else none

/-- A file-system test double: every path holds a one-entry WACZ archive. -/
def fsFixture : String → Archive := fun _ => [("pages/pages.jsonl", "pagesdata")]

/-! ## C1: reads after close -/

/-- C1 counterexample: the claim says that once `close()` has been called
every subsequent entry read fails with the closed-archive error.  On the
code, a client that was entered via a context manager and then closed serves
a subsequent entry read successfully: the `wacz_archive` property reopens the
file because `close()` clears only `_wacz_archive`, not
`_via_context_manager`. -/
theorem read_after_close_succeeds :
    WACZClient.get_archive_file_obj fsFixture
        ((WACZClient.init "crawl.wacz").enter.close) "pages/pages.jsonl"
      = .ok ("pagesdata",
          ⟨"crawl.wacz", true, some [("pages/pages.jsonl", "pagesdata")]⟩) := by
  rfl

/-- C1 (amended): after `close()` the cached archive is cleared, and a
subsequent entry read does not fail with a closed-archive error: when the
client was never entered via a context manager it fails with
`ContextManagerRequiredError` (as any read on such a client does), and when
it was entered the read transparently reopens the WACZ file and succeeds or
fails exactly as a fresh lookup in the reopened archive does. -/
theorem close_then_read_behaviour (fs : String → Archive) (c : WACZClient)
    (path : String) :
    c.close.wacz_archive = none
    ∧ (c.via_context_manager = false →
        WACZClient.get_archive_file_obj fs c.close path
          = .error .contextManagerRequired)
    ∧ (c.via_context_manager = true →
        WACZClient.get_archive_file_obj fs c.close path
          = match (fs c.wacz_filepath).lookup path with
            | some data =>
              .ok (data, ⟨c.wacz_filepath, true, some (fs c.wacz_filepath)⟩)
            | none => .error .waczFileDoesNotExist) := by
  refine ⟨rfl, ?_, ?_⟩
  · intro h
    simp [WACZClient.get_archive_file_obj, WACZClient.wacz_archive_read,
      WACZClient.close, h]
  · intro h
    cases hl : (fs c.wacz_filepath).lookup path <;>
      simp [WACZClient.get_archive_file_obj, WACZClient.wacz_archive_read,
        WACZClient.close, h, hl]

/-! ## C4: malformed CDX lines -/

/-- C4 counterexample: the claim says a compressed CDX index in which every
line is malformed never causes the index load to fail.  On the code, when no
line parses, `parsed_data` is empty, `pd.DataFrame([])` has no `mime` column
and `cdx_df.mime` raises `AttributeError`. -/
theorem all_lines_malformed_load_fails :
    get_cdx_df jsonLoadsFixture ["garbage"] = .error .attributeError := by
  rfl

/-- Unfolding lemma for `parse_cdx_line` with its `let` binding reduced. -/
theorem parse_cdx_line_eq_match (jsonLoads : String → Option JsonObj)
    (line : String) :
    parse_cdx_line jsonLoads line =
      match pySplitSpace2 (pyStrip line) with
      | [_, _, json_str] => jsonLoads json_str
      | _ => none := rfl

/-- A CDX line parses to `None` whenever every three-way split of it would
hand `json.loads` a failing payload (and in particular when there is no
three-way split at all). -/
theorem parse_cdx_line_none (jsonLoads : String → Option JsonObj)
    (line : String)
    (h : ∀ a b j, pySplitSpace2 (pyStrip line) = [a, b, j] → jsonLoads j = none) :
    parse_cdx_line jsonLoads line = none := by
  rw [parse_cdx_line_eq_match]
  cases hps : pySplitSpace2 (pyStrip line) with
  | nil => rfl
  | cons a t =>
    cases t with
    | nil => rfl
    | cons b t2 =>
      cases t2 with
      | nil => rfl
      | cons j t3 =>
        cases t3 with
        | nil => exact h a b j hps
        | cons d t4 => rfl

/-- C4 (amended): a CDX line that fails to split into three tokens, or whose
third token fails to parse as JSON, is skipped (parsed to `None`) and, as
long as at least one line contributes a parsed object with a `mime` key, the
index load does not fail; but when every line is malformed (no line parses),
the mime filter over the empty table fails with `AttributeError`. -/
theorem cdx_malformed_lines_skipped (jsonLoads : String → Option JsonObj)
    (lines : List String) :
    (∀ line ∈ lines, (pySplitSpace2 (pyStrip line)).length ≠ 3 →
        parse_cdx_line jsonLoads line = none)
    ∧ (∀ line ∈ lines, ∀ a b json_str,
        pySplitSpace2 (pyStrip line) = [a, b, json_str] →
        jsonLoads json_str = none →
        parse_cdx_line jsonLoads line = none)
    ∧ (hasColumn (cdx_parsed jsonLoads lines) "mime" = true →
        (get_cdx_df jsonLoads lines).isOk = true)
    ∧ (cdx_parsed jsonLoads lines = [] →
        get_cdx_df jsonLoads lines = .error .attributeError) := by
  refine ⟨?_, ?_, ?_, ?_⟩
  · intro line _ hlen
    exact parse_cdx_line_none jsonLoads line
      (fun a b j e => absurd (by rw [e]; rfl : (pySplitSpace2 (pyStrip line)).length = 3) hlen)
  · intro line _ a b json_str heq hj
    refine parse_cdx_line_none jsonLoads line (fun a' b' j' e => ?_)
    rw [heq] at e
    cases e
    exact hj
  · intro h
    simp [get_cdx_df, h, Except.isOk, Except.toBool]
  · intro h
    simp [get_cdx_df, h, hasColumn]

/-! ## C6: output format dispatch -/

/-- C6: `CrawlMetadataRecords.write` dispatches on the path's file-extension
suffix, case-insensitively, to exactly one of xml, jsonl, tsv, csv, and for
any other suffix raises the unsupported-format error instead of defaulting. -/
theorem write_format_dispatch (filepath : String) :
    (file_format_of filepath = "xml" → write_dispatch filepath = .ok .xml)
    ∧ (file_format_of filepath = "jsonl" → write_dispatch filepath = .ok .jsonl)
    ∧ (file_format_of filepath = "tsv" → write_dispatch filepath = .ok .tsv)
    ∧ (file_format_of filepath = "csv" → write_dispatch filepath = .ok .csv)
    ∧ (file_format_of filepath ∉ (["xml", "jsonl", "tsv", "csv"] : List String) →
        write_dispatch filepath
          = .error ("File format " ++ file_format_of filepath ++ " not recognized"))
    ∧ write_dispatch "out.XML" = .ok .xml
    ∧ write_dispatch "OUT.Jsonl" = .ok .jsonl
    ∧ write_dispatch "out.badext"
        = .error "File format badext not recognized" := by
  refine ⟨?_, ?_, ?_, ?_, ?_, by rfl, by rfl, by rfl⟩
  · intro h; simp [write_dispatch, h]
  · intro h; simp [write_dispatch, h]
  · intro h; simp [write_dispatch, h]
  · intro h; simp [write_dispatch, h]
  · intro h
    have h1 : file_format_of filepath ≠ "xml" := fun e => h (by rw [e]; simp)
    have h2 : file_format_of filepath ≠ "jsonl" := fun e => h (by rw [e]; simp)
    have h3 : file_format_of filepath ≠ "tsv" := fun e => h (by rw [e]; simp)
    have h4 : file_format_of filepath ≠ "csv" := fun e => h (by rw [e]; simp)
    simp [write_dispatch, h1, h2, h3, h4]

/-! ## C7: null fulltext propagation -/

/-- C7: when the raw source text is absent, `parse_fulltext_fields` returns
null `fulltext` and null `fulltext_keywords`, whatever the two flags are. -/
theorem null_fulltext_propagation (extract_keywords_fn : String → String)
    (include_fulltext extract_fulltext_keywords : Bool) :
    parse_fulltext_fields extract_keywords_fn none include_fulltext
        extract_fulltext_keywords = ⟨none, none⟩ := by
  cases include_fulltext <;> cases extract_fulltext_keywords <;> rfl

/-! ## C8: content lookup by URL -/

/-- C8: `get_website_content_by_url` returns content exactly when one row of
`html_websites_df` matches the url; with zero or several matching rows it
raises `FileNotFoundError` and never returns any content. -/
theorem url_lookup_requires_unique_match
    (get_content : Option JsonValue → Option JsonValue → String)
    (df : List MergedRow) (url : String) :
    ((df.filter (fun r => decide (r.url = url))).length = 1 →
      ∃ row ∈ df, row.url = url ∧
        get_website_content_by_url get_content df url
          = .ok (get_content row.filename row.offset))
    ∧ ((df.filter (fun r => decide (r.url = url))).length ≠ 1 →
      get_website_content_by_url get_content df url
        = .error (.fileNotFound ("Could not find url in CDX index: " ++ url))) := by
  have heq : get_website_content_by_url get_content df url =
      match df.filter (fun r => decide (r.url = url)) with
      | [row] => .ok (get_content row.filename row.offset)
      | _ => .error (.fileNotFound ("Could not find url in CDX index: " ++ url)) :=
    rfl
  cases hs : df.filter (fun r => decide (r.url = url)) with
  | nil =>
    refine ⟨fun h => absurd h (by simp), fun _ => ?_⟩
    rw [heq, hs]
  | cons row tail =>
    cases tail with
    | nil =>
      have hmem : row ∈ df.filter (fun r => decide (r.url = url)) := by
        rw [hs]; exact List.mem_cons_self row []
      have hrow := List.mem_filter.mp hmem
      refine ⟨fun _ => ⟨row, hrow.1, of_decide_eq_true hrow.2, ?_⟩,
        fun h => absurd rfl h⟩
      rw [heq, hs]
    | cons row2 tail2 =>
      refine ⟨fun h => absurd h (by simp), fun _ => ?_⟩
      rw [heq, hs]

/-! ## C9: generate_metadata caching -/

/-- C9: once `generate_metadata` has run, every later call returns the
identical cached record set and leaves the parser state unchanged, whatever
flag and file arguments the later call passes (the guard
`if self._websites_metadata:` short-circuits before any argument is read). -/
theorem generate_metadata_cached
    (compute : String → GenerateArgs → List MetaRecord)
    (p : ParserState) (args1 args2 : GenerateArgs) :
    (generate_metadata compute (generate_metadata compute p args1).2 args2).1
      = (generate_metadata compute p args1).1
    ∧ (generate_metadata compute (generate_metadata compute p args1).2 args2).2
      = (generate_metadata compute p args1).2
    ∧ ((generate_metadata compute p args1).2).websites_metadata
      = some (generate_metadata compute p args1).1 := by
  cases h : p.websites_metadata <;> simp [generate_metadata, h]

/-! ## Lemmas about the offset order and drop_duplicates -/

/-- The offset order is reflexive. -/
theorem offLE_refl (x : Option String) : offLE x x = true := by
  cases x <;> simp [offLE, pyStrLE, pyStrLT_irrefl]

/-- Nothing is placed after NaN by the offset order. -/
theorem offLE_none_left {y : Option String} (h : offLE none y = true) : y = none := by
  cases y
  · rfl
  · simp [offLE] at h

/-- Unfolding lemma for `dropDupLastUrl` on a cons cell. -/
theorem dropDupLastUrl_cons (x : MetaRecord) (xs : List MetaRecord) :
    dropDupLastUrl (x :: xs)
      = if xs.any (fun y => decide (y.url = x.url)) then dropDupLastUrl xs
        else x :: dropDupLastUrl xs := rfl

/-- `dropDupLastUrl` keeps a subsequence of its input. -/
theorem dropDupLastUrl_sublist (l : List MetaRecord) :
    (dropDupLastUrl l).Sublist l := by
  induction l with
  | nil => exact List.Sublist.refl []
  | cons x xs ih =>
    rw [dropDupLastUrl_cons]
    by_cases h : xs.any (fun y => decide (y.url = x.url)) = true
    · rw [if_pos h]
      exact ih.trans (List.sublist_cons_self x xs)
    · rw [if_neg h]
      exact ih.cons₂ x

/-- Members of `dropDupLastUrl l` are members of `l`. -/
theorem dropDupLastUrl_mem {r : MetaRecord} {l : List MetaRecord}
    (h : r ∈ dropDupLastUrl l) : r ∈ l :=
  (dropDupLastUrl_sublist l).subset h

/-- After `dropDupLastUrl` all urls are pairwise distinct. -/
theorem dropDupLastUrl_pairwise (l : List MetaRecord) :
    (dropDupLastUrl l).Pairwise (fun a b => a.url ≠ b.url) := by
  induction l with
  | nil => exact List.Pairwise.nil
  | cons x xs ih =>
    rw [dropDupLastUrl_cons]
    by_cases h : xs.any (fun y => decide (y.url = x.url)) = true
    · rw [if_pos h]; exact ih
    · rw [if_neg h]
      refine List.Pairwise.cons (fun b hb heq => ?_) ih
      exact h (List.any_eq_true.mpr
        ⟨b, dropDupLastUrl_mem hb, decide_eq_true heq.symm⟩)

/-- Every url of the input survives `dropDupLastUrl`. -/
theorem dropDupLastUrl_covers (l : List MetaRecord) :
    ∀ r ∈ l, ∃ k ∈ dropDupLastUrl l, k.url = r.url := by
  induction l with
  | nil => intro r h; cases h
  | cons x xs ih =>
    intro r hr
    rw [dropDupLastUrl_cons]
    by_cases hx : xs.any (fun y => decide (y.url = x.url)) = true
    · rw [if_pos hx]
      rcases List.mem_cons.mp hr with rfl | hmem
      · rcases List.any_eq_true.mp hx with ⟨y, hy, hyeq⟩
        rcases ih y hy with ⟨k, hk, hkurl⟩
        exact ⟨k, hk, hkurl.trans (of_decide_eq_true hyeq)⟩
      · exact ih r hmem
    · rw [if_neg hx]
      rcases List.mem_cons.mp hr with rfl | hmem
      · exact ⟨r, List.mem_cons_self _ _, rfl⟩
      · rcases ih r hmem with ⟨k, hk, hkurl⟩
        exact ⟨k, List.mem_cons_of_mem _ hk, hkurl⟩

/-- On a list sorted by the offset order, `dropDupLastUrl` keeps, within each
url group, a record no earlier record of the group exceeds. -/
theorem dropDupLastUrl_max (l : List MetaRecord) (hs : l.Pairwise recLE) :
    ∀ k ∈ dropDupLastUrl l, ∀ s ∈ l, s.url = k.url → recLE s k := by
  induction l with
  | nil => intro k hk; cases hk
  | cons x xs ih =>
    have hx1 : ∀ y ∈ xs, recLE x y := (List.pairwise_cons.mp hs).1
    have hxs : xs.Pairwise recLE := (List.pairwise_cons.mp hs).2
    intro k hk s hsmem hurl
    rw [dropDupLastUrl_cons] at hk
    by_cases hany : xs.any (fun y => decide (y.url = x.url)) = true
    · rw [if_pos hany] at hk
      rcases List.mem_cons.mp hsmem with rfl | hsmem'
      · exact hx1 k (dropDupLastUrl_mem hk)
      · exact ih hxs k hk s hsmem' hurl
    · rw [if_neg hany] at hk
      rcases List.mem_cons.mp hk with rfl | hk'
      · rcases List.mem_cons.mp hsmem with rfl | hsmem'
        · exact offLE_refl s.cdx_offset
        · exact absurd
            (List.any_eq_true.mpr ⟨s, hsmem', decide_eq_true hurl⟩) hany
      · rcases List.mem_cons.mp hsmem with rfl | hsmem'
        · exact hx1 k (dropDupLastUrl_mem hk')
        · exact ih hxs k hk' s hsmem' hurl

/-- A list whose urls are already pairwise distinct is a fixed point of
`dropDupLastUrl`. -/
theorem dropDupLastUrl_of_pairwise (l : List MetaRecord)
    (h : l.Pairwise (fun a b => a.url ≠ b.url)) : dropDupLastUrl l = l := by
  induction l with
  | nil => rfl
  | cons x xs ih =>
    have h1 := (List.pairwise_cons.mp h).1
    have h2 := (List.pairwise_cons.mp h).2
    have hany : ¬xs.any (fun y => decide (y.url = x.url)) = true := by
      intro hc
      rcases List.any_eq_true.mp hc with ⟨y, hy, hyeq⟩
      exact h1 y hy (of_decide_eq_true hyeq).symm
    rw [dropDupLastUrl_cons, if_neg hany, ih h2]

/-- In a list of pairwise-distinct urls, a url determines the record. -/
theorem pairwise_url_inj {l : List MetaRecord}
    (h : l.Pairwise (fun a b => a.url ≠ b.url)) :
    ∀ a ∈ l, ∀ b ∈ l, a.url = b.url → a = b := by
  induction l with
  | nil => intro a ha; cases ha
  | cons x xs ih =>
    intro a ha b hb heq
    have h1 := (List.pairwise_cons.mp h).1
    have h2 := (List.pairwise_cons.mp h).2
    rcases List.mem_cons.mp ha with rfl | ha' <;>
      rcases List.mem_cons.mp hb with rfl | hb'
    · rfl
    · exact absurd heq (h1 b hb')
    · exact absurd heq.symm (h1 a ha')
    · exact ih h2 a ha' b hb' heq

/-! ## C3: dedup keeps the pandas-sort maximum and is idempotent -/

/-- C3 counterexample: the claim says dedup keeps, within each url group,
exactly the record with the maximum `cdx_offset`.  The program's
`cdx_offset` cells are the CDX index's JSON string values, which pandas
`sort_values` compares lexicographically, so for one url crawled at offsets
998 and 1002 — cells "998" and "1002", numeric maximum 1002 — the sort
places "998" last ("1002" < "998" by code point) and `keep="last"` keeps the
offset-998 record, not the numeric maximum. -/
theorem dedup_keeps_lexicographic_not_numeric_max :
    remove_duplicate_urls
        [⟨"u", "active", some "1002"⟩, ⟨"u", "active", some "998"⟩]
      = [⟨"u", "active", some "998"⟩]
    ∧ (998 : Nat) < 1002 := by
  decide

/-- C3 (amended): `_remove_duplicate_urls` keeps, within each group of
records sharing a url, exactly one record, one that every record of the
group is at most as large as under the pandas sort order of the `cdx_offset`
column — lexicographic order on the string-valued offset cells, NaN last —
which is the record with the maximum numeric offset only when the
lexicographic and numeric orders agree on the group (as for the equal-length
digit strings "100" and "200"); every url of the input survives; the
operation is idempotent (even as a list, not just as a set); and duplicates
of one url at offsets 100 and 200 resolve to the offset-200 record. -/
theorem remove_duplicate_urls_spec (l : List MetaRecord) :
    ((remove_duplicate_urls l).Pairwise (fun a b => a.url ≠ b.url))
    ∧ (∀ k ∈ remove_duplicate_urls l, k ∈ l ∧
        ∀ s ∈ l, s.url = k.url → offLE s.cdx_offset k.cdx_offset = true)
    ∧ (∀ r ∈ l, ∃ k ∈ remove_duplicate_urls l, k.url = r.url)
    ∧ remove_duplicate_urls (remove_duplicate_urls l) = remove_duplicate_urls l
    ∧ remove_duplicate_urls
        [⟨"u", "active", some "100"⟩, ⟨"u", "active", some "200"⟩]
        = [⟨"u", "active", some "200"⟩] := by
  have hsorted : (List.insertionSort recLE l).Pairwise recLE :=
    List.sorted_insertionSort recLE l
  refine ⟨dropDupLastUrl_pairwise _, ?_, ?_, ?_, by decide⟩
  · intro k hk
    refine ⟨(List.mem_insertionSort recLE).mp (dropDupLastUrl_mem hk), ?_⟩
    intro s hs hurl
    exact dropDupLastUrl_max _ hsorted k hk s
      ((List.mem_insertionSort recLE).mpr hs) hurl
  · intro r hr
    exact dropDupLastUrl_covers _ r ((List.mem_insertionSort recLE).mpr hr)
  · have hsorted2 : (remove_duplicate_urls l).Pairwise recLE :=
      List.Pairwise.sublist (dropDupLastUrl_sublist _) hsorted
    have hfix : List.insertionSort recLE (remove_duplicate_urls l)
        = remove_duplicate_urls l :=
      List.Sorted.insertionSort_eq hsorted2
    calc remove_duplicate_urls (remove_duplicate_urls l)
        = dropDupLastUrl (List.insertionSort recLE (remove_duplicate_urls l)) :=
          rfl
      _ = dropDupLastUrl (remove_duplicate_urls l) := by rw [hfix]
      _ = remove_duplicate_urls l :=
          dropDupLastUrl_of_pairwise _ (dropDupLastUrl_pairwise _)

/-! ## C10: a deleted record with NaN offset wins dedup -/

/-- C10: when a url appears in the record set with a null (NaN) `cdx_offset`
(a deleted record) and that is the only null-offset record of the url, dedup
keeps it and drops every record of the url that carries a non-null offset
cell: NaN sorts after every string cell and the last instance per url is
kept. -/
theorem dedup_keeps_deleted_over_active (l : List MetaRecord) (u : String)
    (d : MetaRecord)
    (hd : d ∈ l) (hdu : d.url = u) (hdoff : d.cdx_offset = none)
    (huniq : ∀ s ∈ l, s.url = u → s.cdx_offset = none → s = d) :
    d ∈ remove_duplicate_urls l
    ∧ ∀ a ∈ l, a.url = u → a.cdx_offset ≠ none →
        a ∉ remove_duplicate_urls l := by
  have hsorted : (List.insertionSort recLE l).Pairwise recLE :=
    List.sorted_insertionSort recLE l
  obtain ⟨k, hk, hkurl⟩ :=
    dropDupLastUrl_covers _ d ((List.mem_insertionSort recLE).mpr hd)
  have hkl : k ∈ l := (List.mem_insertionSort recLE).mp (dropDupLastUrl_mem hk)
  have hmax : offLE d.cdx_offset k.cdx_offset = true :=
    dropDupLastUrl_max _ hsorted k hk d
      ((List.mem_insertionSort recLE).mpr hd) hkurl.symm
  rw [hdoff] at hmax
  have hkoff : k.cdx_offset = none := offLE_none_left hmax
  have hkd : k = d := huniq k hkl (hkurl.trans hdu) hkoff
  have hdin : d ∈ remove_duplicate_urls l := hkd ▸ hk
  refine ⟨hdin, fun a ha hau haoff hain => ?_⟩
  have had : a = d :=
    pairwise_url_inj (dropDupLastUrl_pairwise _) a hain d hdin
      (by rw [hau, hdu])
  exact haoff (had ▸ hdoff : a.cdx_offset = none)

/-- C10 witness: on the two-record set {active at offset 100, deleted with
null offset} over one url, dedup keeps the deleted record and drops the
active one. -/
theorem dedup_keeps_deleted_over_active_witness :
    (⟨"u", "deleted", none⟩ : MetaRecord) ∈ remove_duplicate_urls
        [⟨"u", "active", some "100"⟩, ⟨"u", "deleted", none⟩]
    ∧ ∀ a ∈ ([⟨"u", "active", some "100"⟩, ⟨"u", "deleted", none⟩] :
          List MetaRecord),
        a.url = "u" → a.cdx_offset ≠ none →
        a ∉ remove_duplicate_urls
            [⟨"u", "active", some "100"⟩, ⟨"u", "deleted", none⟩] :=
  dedup_keeps_deleted_over_active
    [⟨"u", "active", some "100"⟩, ⟨"u", "deleted", none⟩] "u"
    ⟨"u", "deleted", none⟩ (by decide) rfl rfl (by decide)

/-! ## Lemmas about the left merge -/

/-- Decomposition of membership in the left merge: a merged row is either an
unmatched pages row (all CDX columns NaN) or a pages row paired with a CDX
object of the same url. -/
theorem mem_mergeLeft {pages : List PageRow} {cdx : List JsonObj}
    {row : MergedRow} (h : row ∈ mergeLeft pages cdx) :
    (∃ p ∈ pages, row = unmatchedRow p)
    ∨ (∃ p ∈ pages, ∃ c ∈ cdx,
        cell c "url" = some (JsonValue.str p.url) ∧ row = mergeRow p c) := by
  unfold mergeLeft at h
  rcases List.mem_flatMap.mp h with ⟨p, hp, hrow⟩
  by_cases hf :
      (cdx.filter
        (fun c => decide (cell c "url" = some (JsonValue.str p.url)))).isEmpty = true
  · rw [if_pos hf] at hrow
    left
    exact ⟨p, hp, (List.mem_singleton.mp hrow)⟩
  · rw [if_neg hf] at hrow
    right
    rcases List.mem_map.mp hrow with ⟨c, hc, hrp⟩
    have hc2 := List.mem_filter.mp hc
    exact ⟨p, hp, c, hc2.1, of_decide_eq_true hc2.2, hrp.symm⟩

/-- When `get_cdx_df` succeeds, its rows are the parsed CDX objects whose
mime cell is exactly `text/html`. -/
theorem get_cdx_df_ok {jsonLoads : String → Option JsonObj}
    {lines : List String} {cdx : List JsonObj}
    (h : get_cdx_df jsonLoads lines = .ok cdx) :
    cdx = (cdx_parsed jsonLoads lines).filter
      (fun o => decide (cell o "mime" = some (JsonValue.str "text/html"))) := by
  unfold get_cdx_df at h
  by_cases hc : hasColumn (cdx_parsed jsonLoads lines) "mime" = true
  · rw [if_pos hc] at h
    exact (Except.ok.inj h).symm
  · rw [if_neg hc] at h
    exact Except.noConfusion h

/-! ## C2: join correctness of html_websites_df -/

/-- C2: every row of a successfully built `html_websites_df` has a non-null
`filename` and mime exactly `text/html`, and stems from a parsed CDX index
entry with the row's url; a manifest (pages) row with no matching index
entry never appears in the table. -/
theorem html_websites_rows_have_cdx (jsonLoads : String → Option JsonObj)
    (pages : List PageRow) (cdx_lines : List String) (df : List MergedRow)
    (row : MergedRow)
    (hdf : html_websites_df jsonLoads pages cdx_lines = .ok df)
    (hrow : row ∈ df) :
    row.filename.isSome = true
    ∧ row.mime = some (JsonValue.str "text/html")
    ∧ ∃ c ∈ cdx_parsed jsonLoads cdx_lines,
        cell c "url" = some (JsonValue.str row.url)
        ∧ cell c "mime" = some (JsonValue.str "text/html") := by
  unfold html_websites_df at hdf
  cases hcdx : get_cdx_df jsonLoads cdx_lines with
  | error e =>
    rw [hcdx] at hdf
    exact Except.noConfusion hdf
  | ok cdx =>
    rw [hcdx] at hdf
    have hdf2 : (if hasColumn (cdx_parsed jsonLoads cdx_lines) "filename" = true
        then Except.ok ((mergeLeft pages cdx).filter (fun r => r.filename.isSome))
        else Except.error PyError.attributeError) = Except.ok df := hdf
    by_cases hcol :
        hasColumn (cdx_parsed jsonLoads cdx_lines) "filename" = true
    · rw [if_pos hcol] at hdf2
      have hdf' := (Except.ok.inj hdf2).symm
      subst hdf'
      have hf := List.mem_filter.mp hrow
      rcases mem_mergeLeft hf.1 with ⟨p, _, rfl⟩ | ⟨p, hp, c, hc, hcurl, rfl⟩
      · exact absurd hf.2 (by simp [unmatchedRow])
      · have hc2 := List.mem_filter.mp (get_cdx_df_ok hcdx ▸ hc)
        have hcmime : cell c "mime" = some (JsonValue.str "text/html") :=
          of_decide_eq_true hc2.2
        refine ⟨hf.2, hcmime, c, hc2.1, hcurl, hcmime⟩
    · rw [if_neg hcol] at hdf2
      exact Except.noConfusion hdf2

/-- The single pages row of the C2 witness crawl. -/
def pagesFixture : List PageRow :=
  [⟨"https://libraries.mit.edu/", some "MIT Libraries", some "hello"⟩]

/-- The single CDX index line of the C2 witness crawl. -/
def cdxLinesFixture : List String :=
  ["edu,mit,libraries)/ 20230925175224 OBJ1"]

/-- The one row `html_websites_df` builds on the witness crawl. -/
def rowFixture : MergedRow :=
  mergeRow ⟨"https://libraries.mit.edu/", some "MIT Libraries", some "hello"⟩
    [("url", JsonValue.str "https://libraries.mit.edu/"),
     ("mime", JsonValue.str "text/html"),
     ("offset", JsonValue.str "3485"),
     ("filename", JsonValue.str "rec-1.warc.gz")]

/-- C2 witness: the join-correctness theorem applied to the one-page,
one-index-line fixture crawl. -/
theorem html_websites_rows_have_cdx_witness :
    rowFixture.filename.isSome = true
    ∧ rowFixture.mime = some (JsonValue.str "text/html")
    ∧ ∃ c ∈ cdx_parsed jsonLoadsFixture cdxLinesFixture,
        cell c "url" = some (JsonValue.str rowFixture.url)
        ∧ cell c "mime" = some (JsonValue.str "text/html") :=
  html_websites_rows_have_cdx jsonLoadsFixture pagesFixture cdxLinesFixture
    [rowFixture] rowFixture (by decide) (by decide)

/-! ## C5: deletion diff -/

/-- The records of one url carry pairwise-distinct urls after the deletion
diff, because the urls come from a deduplicated list. -/
theorem pairwise_filterMap_deleted (us : List String) (h : us.Nodup) :
    (us.filterMap (fun u => if u = "" then none
        else some (⟨u, "deleted"⟩ : DeletedRecord))).Pairwise
      (fun a b => a.url ≠ b.url) := by
  induction us with
  | nil => exact List.Pairwise.nil
  | cons u rest ih =>
    have h1 : u ∉ rest := (List.nodup_cons.mp h).1
    have h2 := (List.nodup_cons.mp h).2
    rw [List.filterMap_cons]
    by_cases hu : u = ""
    · rw [if_pos hu]
      exact ih h2
    · rw [if_neg hu]
      refine List.Pairwise.cons (fun b hb => ?_) (ih h2)
      rcases List.mem_filterMap.mp hb with ⟨v, hv, hvb⟩
      by_cases hveq : v = ""
      · rw [if_pos hveq] at hvb
        exact Option.noConfusion hvb
      · rw [if_neg hveq] at hvb
        have hbv : b = ⟨v, "deleted"⟩ := (Option.some.inj hvb).symm
        subst hbv
        intro e
        have e2 : u = v := e
        exact h1 (by rw [e2]; exact hv)

/-- C5: the deletion diff emits, per url of stripped-previous minus
stripped-current (set difference), exactly one record, that record carrying
status `deleted` and a non-empty url; and when the previous-URLs file cannot
be opened the diff is the empty list rather than a failure. -/
theorem deletion_diff_spec (current prev : List String) :
    (∀ r, r ∈ generate_metadata_for_deleted_urls current (some prev) ↔
      (r.status = "deleted" ∧ r.url ≠ ""
        ∧ r.url ∈ prev.map pyStrip ∧ r.url ∉ current.map pyStrip))
    ∧ (generate_metadata_for_deleted_urls current (some prev)).Pairwise
        (fun a b => a.url ≠ b.url)
    ∧ generate_metadata_for_deleted_urls current none = [] := by
  refine ⟨?_, ?_, rfl⟩
  · intro r
    show r ∈ (((prev.map pyStrip).filter
        (fun u => decide (u ∉ current.map pyStrip))).dedup).filterMap
          (fun url => if url = "" then none
            else some (⟨url, "deleted"⟩ : DeletedRecord)) ↔ _
    rw [List.mem_filterMap]
    constructor
    · rintro ⟨u, hu, hif⟩
      have hu2 := List.mem_filter.mp (List.mem_dedup.mp hu)
      by_cases hue : u = ""
      · rw [if_pos hue] at hif
        exact Option.noConfusion hif
      · rw [if_neg hue] at hif
        have hr : r = ⟨u, "deleted"⟩ := (Option.some.inj hif).symm
        subst hr
        exact ⟨rfl, hue, hu2.1, of_decide_eq_true hu2.2⟩
    · rintro ⟨hstat, hne, hprev, hcur⟩
      refine ⟨r.url, ?_, ?_⟩
      · exact List.mem_dedup.mpr
          (List.mem_filter.mpr ⟨hprev, decide_eq_true hcur⟩)
      · rw [if_neg hne]
        cases r with
        | mk url status =>
          simp only at hstat
          rw [hstat]
  · exact pairwise_filterMap_deleted _ (List.nodup_dedup _)
